import Mathlib

/-!
Verification development for the scg-config repository: a shallow
embedding of its settings-tree data model, merge engine, path resolver,
typed getter and snapshot/reload coordination, with theorems settling
the frozen claims about the specification.
-/

/-- A settings-tree node: scalar (null, bool, int, string), ordered
sequence, or mapping from string keys to nodes, embedded from the Go
`interface\x7b\x7d` values produced by the loaders (mappings as
association lists, preserving an iteration order). -/
inductive Value where
  | vNull : Value
  | vBool : Bool → Value
  | vInt : Int → Value
  | vStr : String → Value
  | vSeq : List Value → Value
  | vMap : List (String × Value) → Value

/-- Whether a node is the Go `nil` value (YAML/JSON null). -/
def Value.isNull : Value → Bool
  | Value.vNull => true
  | _ => false

/-- Association-list lookup, the embedding of a Go map read `m[k]`
returning the first binding of the key. -/
def lookupA (m : List (String × Value)) (k : String) : Option Value :=
  match m with
  | [] => none
  | (k0, v) :: rest => if k0 = k then some v else lookupA rest k

/-- The embedding of a Go map write `m[k] = v`: replace the binding if
the key is present, otherwise append it. -/
def setKey (m : List (String × Value)) (k : String) (v : Value) :
    List (String × Value) :=
  if m.any (fun p => p.1 = k) then
    m.map (fun p => if p.1 = k then (k, v) else p)
  else
    m ++ [(k, v)]

/-- The keys of an association list. -/
def keysOf (m : List (String × Value)) : List String := m.map Prod.fst

/-- An association list with no duplicated key. -/
def nodupKeys (m : List (String × Value)) : Prop := (keysOf m).Nodup

instance (m : List (String × Value)) : Decidable (nodupKeys m) := by
  unfold nodupKeys; infer_instance

mutual
/-- Modelled from the spec: the merge rule of the provider's
`MergeConfigMap` (package provider/viper, not under src/). For one key:
when both sides are mappings, merge recursively; otherwise the incoming
value replaces the base value entirely. -/
def mergeVal : Value → Value → Value
  | Value.vMap bm, Value.vMap im => Value.vMap (mergeInto bm im)
  | _, i => i

/-- Modelled from the spec: fold each incoming binding into the base
mapping — a key absent from the base is added, a key present in both is
combined with `mergeVal`. Keys only in the base are left unchanged. -/
def mergeInto (base : List (String × Value)) :
    List (String × Value) → List (String × Value)
  | [] => base
  | (k, iv) :: rest =>
      match lookupA base k with
      | some bv => mergeInto (setKey base k (mergeVal bv iv)) rest
      | none => mergeInto (setKey base k iv) rest
end

/-- Decimal value of a digit list, most significant first. -/
def digitsVal (l : List Char) : Nat :=
  l.foldl (fun acc c => acc * 10 + (c.toNat - 48)) 0

/-- The embedding of Go's `strconv.Atoi`: an optional sign followed by
at least one decimal digit and nothing else; anything else errors
(modelled as `none`). Word-size overflow is not modelled. -/
def atoi (s : String) : Option Int :=
  match s.toList with
  | [] => none
  | c :: rest =>
    if c = '+' then
      if !rest.isEmpty && rest.all Char.isDigit then
        some (digitsVal rest : Int)
      else none
    else if c = '-' then
      if !rest.isEmpty && rest.all Char.isDigit then
        some (-(digitsVal rest : Int))
      else none
    else
      if (c :: rest).all Char.isDigit then
        some (digitsVal (c :: rest) : Int)
      else none

/-- ASCII lower-casing of one character, the embedding of Go's
`strings.ToLower` per character (the claims exercise ASCII keys only;
full Unicode folding is not modelled). -/
def charLower (c : Char) : Char :=
  if 'A' ≤ c ∧ c ≤ 'Z' then Char.ofNat (c.toNat + 32) else c

/-- `strings.ToLower` on a string, character by character. -/
def strToLower (s : String) : String :=
  (s.toList.map charLower).asString

/-- The loop body of `Config.traverseNestedMap` (src/config.go):
dispatch on the current node's shape for each remaining segment.
A mapping is read by exact key (an absent key gives Go `nil`); a
sequence parses the segment with `strconv.Atoi` and rejects negative or
out-of-range indices; any other shape stops the walk. A `nil` value
reached at any point (including after the last segment) yields
not-found, mirroring the `current == nil` check in the loop. The Go
variants `map[string]string`, `map[interface\x7b\x7d]interface\x7b\x7d`
and `[]string` collapse onto `vMap`/`vSeq` in this embedding, with the
same observable behaviour. -/
def walk : Value → List String → Option Value
  | cur, [] => some cur
  | cur, part :: rest =>
    match cur with
    | Value.vMap m =>
        match lookupA m part with
        | some v => if v.isNull then none else walk v rest
        | none => none
    | Value.vSeq xs =>
        match atoi part with
        | some i =>
            if 0 ≤ i then
              match xs.get? i.toNat with
              | some v => if v.isNull then none else walk v rest
              | none => none
            else none
        | none => none
    | _ => none

/-- Split a character list on the dot character, the embedding of Go's
`strings.Split(path, ".")`: adjacent dots and edge dots produce empty
segments, and the empty input gives one empty segment. -/
def splitDots : List Char → List (List Char)
  | [] => [[]]
  | c :: rest =>
      if c = '.' then [] :: splitDots rest
      else
        match splitDots rest with
        | [] => [[c]]
        | g :: gs => (c :: g) :: gs

/-- `strings.Split(path, ".")` on a string. -/
def splitPath (path : String) : List String :=
  (splitDots path.toList).map List.asString

/-- `Config.traverseNestedMap` (src/config.go lines 188-238): split the
dotted path and walk the nested map. -/
def traverseNestedMap (settings : List (String × Value)) (path : String) :
    Option Value :=
  walk (Value.vMap settings) (splitPath path)

/-- The case-insensitive scan loop from
`Config.traverseNestedMapCaseInsensitive`: the first entry whose
lower-cased key equals the lower-cased segment wins. -/
def scanCI (entries : List (String × Value)) (lowerPart : String) :
    Option Value :=
  match entries with
  | [] => none
  | (k, v) :: rest =>
      if strToLower k = lowerPart then some v else scanCI rest lowerPart

/-- The loop body of `Config.traverseNestedMapCaseInsensitive`
(src/config.go lines 292-386): exact-match lookup first at every
mapping node, then the case-insensitive scan; sequences behave exactly
as in `walk`. -/
def walkCI : Value → List String → Option Value
  | cur, [] => some cur
  | cur, part :: rest =>
    match cur with
    | Value.vMap m =>
        match lookupA m part with
        | some v => if v.isNull then none else walkCI v rest
        | none =>
            match scanCI m (strToLower part) with
            | some v => if v.isNull then none else walkCI v rest
            | none => none
    | Value.vSeq xs =>
        match atoi part with
        | some i =>
            if 0 ≤ i then
              match xs.get? i.toNat with
              | some v => if v.isNull then none else walkCI v rest
              | none => none
            else none
        | none => none
    | _ => none

/-- `Config.traverseNestedMapCaseInsensitive` (src/config.go). -/
def traverseNestedMapCaseInsensitive (settings : List (String × Value))
    (path : String) : Option Value :=
  walkCI (Value.vMap settings) (splitPath path)

/-- Error taxonomy of the typed accessor (src/errors/config.go):
`ErrKeyNotFound`, `ErrWrongType`, `ErrUnknownType`. -/
inductive GetErr where
  | keyNotFound : GetErr
  | wrongType : GetErr
  | unknownType : GetErr
  deriving DecidableEq

/-- The recognized `contract.KeyType` tags (src/contract/config.go);
`KeyType` is a Go string type, so an arbitrary string may be passed. -/
def recognizedTags : List String :=
  ["int", "int32", "int64", "uint", "uint32", "uint64", "float32",
   "float64", "string", "bool", "[]string", "map", "time", "duration",
   "bytes", "uuid", "url"]

/-- Modelled from the spec: the direct type assertion of the Getter
(package config, getter not under src/) — a stored value whose shape
already matches the requested tag is returned unchanged. Tags whose
carrier types are outside this embedding (float, time, duration, bytes,
uuid, url) assert directly on no embedded value. -/
def directCast (v : Value) (t : String) : Option Value :=
  match t, v with
  | "int", Value.vInt _ => some v
  | "int32", Value.vInt _ => some v
  | "int64", Value.vInt _ => some v
  | "uint", Value.vInt _ => some v
  | "uint32", Value.vInt _ => some v
  | "uint64", Value.vInt _ => some v
  | "string", Value.vStr _ => some v
  | "bool", Value.vBool _ => some v
  | "[]string", Value.vSeq _ => some v
  | "map", Value.vMap _ => some v
  | _, _ => none

/-- Modelled from the spec: best-effort coercion of the Getter (not
under src/) — e.g. a numeric string coerces to the int family, and the
strings "true"/"false" coerce to bool. -/
def coerceVal (v : Value) (t : String) : Option Value :=
  match t, v with
  | "int", Value.vStr s => (atoi s).map Value.vInt
  | "int32", Value.vStr s => (atoi s).map Value.vInt
  | "int64", Value.vStr s => (atoi s).map Value.vInt
  | "string", Value.vInt n => some (Value.vStr (toString n))
  | "string", Value.vBool b => some (Value.vStr (toString b))
  | "bool", Value.vStr s =>
      if s = "true" then some (Value.vBool true)
      else if s = "false" then some (Value.vBool false)
      else none
  | _, _ => none

/-- Modelled from the spec: conversion step of `Getter.Get` — direct
assertion, then coercion, then `ErrWrongType`; an unrecognized tag
fails with `ErrUnknownType`. -/
def convertVal (v : Value) (t : String) : Except GetErr Value :=
  if t ∈ recognizedTags then
    match directCast v t with
    | some r => Except.ok r
    | none =>
        match coerceVal v t with
        | some r => Except.ok r
        | none => Except.error GetErr.wrongType
  else Except.error GetErr.unknownType

/-- Modelled from the spec: the Getter's resolution of a segmented key
against its snapshot (exact match with case-insensitive fallback, as in
the resolver of src/config.go). -/
def resolveSegs (settings : List (String × Value)) (segs : List String) :
    Option Value :=
  walkCI (Value.vMap settings) segs

/-- Modelled from the spec: `Getter.Get` on pre-split segments — resolve
the path, fail with `ErrKeyNotFound` when absent, otherwise convert. -/
def getterGetSegs (settings : List (String × Value)) (segs : List String)
    (t : String) : Except GetErr Value :=
  match resolveSegs settings segs with
  | none => Except.error GetErr.keyNotFound
  | some v => convertVal v t

/-- Modelled from the spec: `Getter.Get` (package config, not under
src/) on a dotted key string. -/
def getterGet (settings : List (String × Value)) (key : String)
    (t : String) : Except GetErr Value :=
  getterGetSegs settings (splitPath key) t

/-- Modelled from the spec: `Getter.HasKey` — resolve-only, no
coercion, no error. -/
def getterHasKey (settings : List (String × Value)) (key : String) : Bool :=
  (resolveSegs settings (splitPath key)).isSome

/-- Modelled from the spec: the provider's `Set` (provider/viper, not
under src/) — write a value at a dot-separated path, lower-casing each
segment as viper does, creating or overwriting intermediate mappings. -/
def setPath (m : List (String × Value)) : List String → Value →
    List (String × Value)
  | [], _ => m
  | [k], v => setKey m (strToLower k) v
  | k :: k2 :: rest, v =>
      let sub :=
        match lookupA m (strToLower k) with
        | some (Value.vMap sm) => sm
        | _ => []
      setKey m (strToLower k) (Value.vMap (setPath sub (k2 :: rest) v))

/-- The state of the core config service (src/config/config.go): the
provider's current settings, the immutable getter snapshot built from
them, and whether `Close` has run (the `done` channel is closed). -/
structure ConfigService where
  providerSettings : List (String × Value)
  getter : List (String × Value)
  closed : Bool

/-- The outcome of `provider.ReadInConfig()`: either an error or the
fresh settings the provider would then hold. -/
def ReadOutcome := Except String (List (String × Value))

/-- `Config.Reload` (src/config/config.go lines 171-180): re-read the
provider; on error return it, leaving the service untouched; on success
rebuild the getter snapshot from `AllSettings`. No field of the service
other than the provider settings and the getter is consulted or
changed. -/
def ConfigService.Reload (c : ConfigService) (outcome : ReadOutcome) :
    ConfigService × Option String :=
  match outcome with
  | Except.error e => (c, some e)
  | Except.ok s => ({ c with providerSettings := s, getter := s }, none)

/-- `Config.Close` (src/config/config.go lines 129-140): close the
`done` channel and the watcher; the provider settings and the getter
are untouched, and no flag consulted by `Reload` is set. -/
def ConfigService.Close (c : ConfigService) : ConfigService :=
  { c with closed := true }

/-- `Config.getTypedValue` (src/config.go lines 391-405): the resolved
value (Go `nil` embedded as `none`), the zero-value default, the type
check, and the viper fallback for present-but-unconvertible values. -/
def getTypedValue {α : Type} (resolved : Option Value) (defaultValue : α)
    (typeCheck : Value → Option α) (viperGet : Unit → α) : α :=
  match resolved with
  | none => defaultValue
  | some v =>
      match typeCheck v with
      | some a => a
      | none => viperGet ()

/-- `Config.GetString` (src/config.go) applied to a resolution result. -/
def legacyGetString (resolved : Option Value) (viperGet : Unit → String) :
    String :=
  getTypedValue resolved ""
    (fun v => match v with | Value.vStr s => some s | _ => none) viperGet

/-- `Config.GetInt` (src/config.go) applied to a resolution result. -/
def legacyGetInt (resolved : Option Value) (viperGet : Unit → Int) : Int :=
  getTypedValue resolved 0
    (fun v => match v with | Value.vInt n => some n | _ => none) viperGet

/-- `Config.GetBool` (src/config.go) applied to a resolution result. -/
def legacyGetBool (resolved : Option Value) (viperGet : Unit → Bool) :
    Bool :=
  getTypedValue resolved false
    (fun v => match v with | Value.vBool b => some b | _ => none) viperGet

/-- `Config.GetFloat64` (src/config.go): floats are outside this
embedding's scalar universe, so the type check asserts on no embedded
value, exactly as a Go `float64` assertion on our modelled values. -/
def legacyGetFloat64 (resolved : Option Value) (viperGet : Unit → Int) :
    Int :=
  getTypedValue resolved 0 (fun _ => none) viperGet

/-- `Config.GetDuration` (src/config.go): `time.Duration` modelled as
an integer number of nanoseconds; zero value 0. -/
def legacyGetDuration (resolved : Option Value) (viperGet : Unit → Int) :
    Int :=
  getTypedValue resolved 0 (fun _ => none) viperGet

/-- `Config.GetTime` (src/config.go): `time.Time` modelled as an
integer instant; zero value 0 stands for Go's zero `time.Time`. -/
def legacyGetTime (resolved : Option Value) (viperGet : Unit → Int) :
    Int :=
  getTypedValue resolved 0 (fun _ => none) viperGet

/-- `Config.GetStringSlice` (src/config.go): zero value Go `nil`,
embedded as the empty list. -/
def legacyGetStringSlice (resolved : Option Value)
    (viperGet : Unit → List String) : List String :=
  getTypedValue resolved []
    (fun v =>
      match v with
      | Value.vSeq xs =>
          xs.mapM (fun x => match x with | Value.vStr s => some s | _ => none)
      | _ => none) viperGet

/-- `Config.GetStringMap` (src/config.go): zero value Go `nil`,
embedded as the empty association list. -/
def legacyGetStringMap (resolved : Option Value)
    (viperGet : Unit → List (String × Value)) : List (String × Value) :=
  getTypedValue resolved []
    (fun v => match v with | Value.vMap m => some m | _ => none) viperGet

/-- `Config.GetStringMapString` (src/config.go): zero value Go `nil`,
embedded as the empty association list of strings. -/
def legacyGetStringMapString (resolved : Option Value)
    (viperGet : Unit → List (String × String)) : List (String × String) :=
  getTypedValue resolved []
    (fun v =>
      match v with
      | Value.vMap m =>
          m.mapM (fun p =>
            match p.2 with | Value.vStr s => some (p.1, s) | _ => none)
      | _ => none) viperGet

/-- `Loader.LoadFromDirectory` (src/unnamed/part_001 lines 44-93), with
file reading abstracted: each already-parsed file is a pair of its base
name (without extension) and its settings tree. The first file is
loaded as the base configuration unchanged; every later file's tree is
handed to `MergeConfigMap` as is. No namespace wrapping occurs. -/
def loaderLoadFromDirectory (files : List (String × List (String × Value))) :
    List (String × Value) :=
  match files with
  | [] => []
  | (_, t) :: rest =>
      rest.foldl (fun acc f => mergeInto acc f.2) t

/-- `Config.loadFromDirectoryWithPrefixAndOptions` (src/config.go lines
100-183), with file reading abstracted as for `loaderLoadFromDirectory`
and an empty starting configuration: every file's settings tree —
including the first — is wrapped as `\x7bnamespace: settings\x7d` and
merged with `MergeConfigMap`. -/
def legacyLoadFromDirectory (files : List (String × List (String × Value))) :
    List (String × Value) :=
  files.foldl (fun acc f => mergeInto acc [(f.1, Value.vMap f.2)]) []

theorem lookupA_append (m l : List (String × Value)) (k : String) :
    lookupA (m ++ l) k =
      match lookupA m k with
      | some v => some v
      | none => lookupA l k := by
  induction m with
  | nil => simp [lookupA]
  | cons p rest ih =>
      obtain ⟨k0, v⟩ := p
      by_cases h : k0 = k <;> simp [lookupA, h, ih]

theorem lookupA_eq_none_of_not_any (m : List (String × Value)) (k : String)
    (h : m.any (fun p => p.1 = k) = false) : lookupA m k = none := by
  induction m with
  | nil => rfl
  | cons p rest ih =>
      obtain ⟨k0, v⟩ := p
      simp only [List.any_cons, Bool.or_eq_false_iff] at h
      have hk : k0 ≠ k := by
        intro he
        simp [he] at h
      simp [lookupA, hk, ih h.2]

theorem lookupA_map_replace_self (m : List (String × Value)) (k : String)
    (v : Value) (h : m.any (fun p => p.1 = k) = true) :
    lookupA (m.map (fun p => if p.1 = k then (k, v) else p)) k = some v := by
  induction m with
  | nil => simp at h
  | cons p rest ih =>
      obtain ⟨k0, v0⟩ := p
      simp only [List.map_cons]
      by_cases hk : k0 = k
      · subst hk
        rw [if_pos (show (k0, v0).1 = k0 from rfl)]
        simp [lookupA]
      · rw [if_neg (show ¬((k0, v0).1 = k) from hk)]
        have h2 : (rest.any fun p => p.1 = k) = true := by
          simp only [List.any_cons] at h
          simpa [hk] using h
        simp only [lookupA, hk, if_false]
        exact ih h2

theorem lookupA_map_replace_other (m : List (String × Value))
    (k k2 : String) (v : Value) (hne : k2 ≠ k) :
    lookupA (m.map (fun p => if p.1 = k then (k, v) else p)) k2 =
      lookupA m k2 := by
  induction m with
  | nil => rfl
  | cons p rest ih =>
      obtain ⟨k0, v0⟩ := p
      simp only [List.map_cons]
      by_cases hk : k0 = k
      · subst hk
        rw [if_pos (show (k0, v0).1 = k0 from rfl)]
        have h1 : ¬(k0 = k2) := fun he => hne he.symm
        simp only [lookupA, h1, if_false]
        exact ih
      · rw [if_neg (show ¬((k0, v0).1 = k) from hk)]
        by_cases h2 : k0 = k2
        · simp [lookupA, h2]
        · simp only [lookupA, h2, if_false]
          exact ih

theorem lookupA_setKey_self (m : List (String × Value)) (k : String)
    (v : Value) : lookupA (setKey m k v) k = some v := by
  unfold setKey
  by_cases h : m.any (fun p => p.1 = k) = true
  · simp only [h, if_true]
    exact lookupA_map_replace_self m k v h
  · simp only [Bool.not_eq_true] at h
    simp only [h, Bool.false_eq_true, if_false]
    rw [lookupA_append, lookupA_eq_none_of_not_any m k h]
    simp [lookupA]

theorem lookupA_setKey_other (m : List (String × Value)) (k k2 : String)
    (v : Value) (hne : k2 ≠ k) :
    lookupA (setKey m k v) k2 = lookupA m k2 := by
  unfold setKey
  by_cases h : m.any (fun p => p.1 = k) = true
  · simp only [h, if_true]
    exact lookupA_map_replace_other m k k2 v hne
  · simp only [Bool.not_eq_true] at h
    simp only [h, Bool.false_eq_true, if_false]
    rw [lookupA_append]
    cases hm : lookupA m k2 with
    | some v0 => rfl
    | none => simp [lookupA, Ne.symm hne]

theorem lookupA_eq_none_of_not_mem (m : List (String × Value)) (k : String)
    (h : k ∉ keysOf m) : lookupA m k = none := by
  induction m with
  | nil => rfl
  | cons p rest ih =>
      obtain ⟨k0, v⟩ := p
      simp only [keysOf, List.map_cons, List.mem_cons, not_or] at h
      have hk : k0 ≠ k := fun he => h.1 he.symm
      simp only [lookupA, hk, if_false]
      exact ih (by simpa [keysOf] using h.2)

theorem mergeInto_lookup_of_none (base inc : List (String × Value))
    (k : String) (h : lookupA inc k = none) :
    lookupA (mergeInto base inc) k = lookupA base k := by
  induction inc generalizing base with
  | nil => rfl
  | cons p rest ih =>
      obtain ⟨k0, iv⟩ := p
      by_cases hk : k0 = k
      · simp [lookupA, hk] at h
      · simp only [lookupA, hk, if_false] at h
        show lookupA
            (match lookupA base k0 with
             | some bv => mergeInto (setKey base k0 (mergeVal bv iv)) rest
             | none => mergeInto (setKey base k0 iv) rest) k = lookupA base k
        cases hbase : lookupA base k0 with
        | some bv =>
            rw [ih _ h, lookupA_setKey_other base k0 k _ (Ne.symm hk)]
        | none =>
            rw [ih _ h, lookupA_setKey_other base k0 k _ (Ne.symm hk)]

theorem mergeInto_lookup (base inc : List (String × Value)) (k : String)
    (h : nodupKeys inc) :
    lookupA (mergeInto base inc) k =
      match lookupA inc k with
      | none => lookupA base k
      | some iv =>
          match lookupA base k with
          | none => some iv
          | some bv => some (mergeVal bv iv) := by
  induction inc generalizing base with
  | nil => rfl
  | cons p rest ih =>
      obtain ⟨k0, iv0⟩ := p
      have hcons : (k0 :: keysOf rest).Nodup := h
      have hnotmem : k0 ∉ keysOf rest := (List.nodup_cons.mp hcons).1
      have hnd : nodupKeys rest := (List.nodup_cons.mp hcons).2
      by_cases hk : k0 = k
      · subst hk
        have hrest : lookupA rest k0 = none :=
          lookupA_eq_none_of_not_mem rest k0 hnotmem
        show lookupA
            (match lookupA base k0 with
             | some bv => mergeInto (setKey base k0 (mergeVal bv iv0)) rest
             | none => mergeInto (setKey base k0 iv0) rest) k0 =
          match lookupA ((k0, iv0) :: rest) k0 with
          | none => lookupA base k0
          | some iv =>
              match lookupA base k0 with
              | none => some iv
              | some bv => some (mergeVal bv iv)
        cases hbase : lookupA base k0 with
        | some bv =>
            rw [mergeInto_lookup_of_none _ _ _ hrest, lookupA_setKey_self]
            simp [lookupA, hbase]
        | none =>
            rw [mergeInto_lookup_of_none _ _ _ hrest, lookupA_setKey_self]
            simp [lookupA, hbase]
      · show lookupA
            (match lookupA base k0 with
             | some bv => mergeInto (setKey base k0 (mergeVal bv iv0)) rest
             | none => mergeInto (setKey base k0 iv0) rest) k =
          match lookupA ((k0, iv0) :: rest) k with
          | none => lookupA base k
          | some iv =>
              match lookupA base k with
              | none => some iv
              | some bv => some (mergeVal bv iv)
        have hhead : lookupA ((k0, iv0) :: rest) k = lookupA rest k := by
          simp [lookupA, hk]
        rw [hhead]
        cases hbase : lookupA base k0 with
        | some bv =>
            rw [ih _ hnd,
              lookupA_setKey_other base k0 k _ (Ne.symm hk)]
        | none =>
            rw [ih _ hnd,
              lookupA_setKey_other base k0 k _ (Ne.symm hk)]

theorem mergeVal_not_both_map (bv iv : Value)
    (h : ∀ bm im, bv = Value.vMap bm → iv = Value.vMap im → False) :
    mergeVal bv iv = iv := by
  cases bv <;> cases iv <;> try rfl
  exact (h _ _ rfl rfl).elim

/-- C1: merging settings tree A (base) then tree B (incoming) gives, at
every key: B's value when the key is in both and the two values are not
both mappings (later-wins, sequences and scalars replaced whole); the
recursive merge when both values are mappings; A's value unchanged for
keys only in A; and B's value for keys only in B. -/
theorem mergeConfigMap_later_wins (base inc : List (String × Value))
    (h : nodupKeys inc) (k : String) :
    (∀ bm im, lookupA base k = some (Value.vMap bm) →
        lookupA inc k = some (Value.vMap im) →
        lookupA (mergeInto base inc) k =
          some (Value.vMap (mergeInto bm im))) ∧
    (∀ bv iv, lookupA base k = some bv → lookupA inc k = some iv →
        (∀ bm im, bv = Value.vMap bm → iv = Value.vMap im → False) →
        lookupA (mergeInto base inc) k = some iv) ∧
    (lookupA inc k = none →
        lookupA (mergeInto base inc) k = lookupA base k) ∧
    (lookupA base k = none → ∀ iv, lookupA inc k = some iv →
        lookupA (mergeInto base inc) k = some iv) := by
  refine ⟨?_, ?_, ?_, ?_⟩
  · intro bm im hb hi
    rw [mergeInto_lookup base inc k h, hi, hb]
    rfl
  · intro bv iv hb hi hnot
    rw [mergeInto_lookup base inc k h, hi, hb]
    show some (mergeVal bv iv) = some iv
    rw [mergeVal_not_both_map bv iv hnot]
  · intro hi
    rw [mergeInto_lookup base inc k h, hi]
  · intro hb iv hi
    rw [mergeInto_lookup base inc k h, hi, hb]

/-- Concrete base tree for the C1 witness. -/
def c1Base : List (String × Value) :=
  [("a", Value.vInt 1),
   ("c", Value.vMap [("x", Value.vInt 1), ("s", Value.vStr "old")]),
   ("d", Value.vInt 4)]

/-- Concrete incoming tree for the C1 witness. -/
def c1Inc : List (String × Value) :=
  [("a", Value.vInt 2), ("b", Value.vInt 3),
   ("c", Value.vMap [("s", Value.vStr "new")])]

/-- Witness for C1 at a concrete pair of trees: key "a" in both (scalar
replaced by B's value), key "d" only in A (kept), key "b" only in B
(added), key "c" a mapping in both (merged recursively). -/
theorem mergeConfigMap_later_wins_witness :
    lookupA (mergeInto c1Base c1Inc) "a" = some (Value.vInt 2) ∧
    lookupA (mergeInto c1Base c1Inc) "d" = some (Value.vInt 4) ∧
    lookupA (mergeInto c1Base c1Inc) "b" = some (Value.vInt 3) ∧
    lookupA (mergeInto c1Base c1Inc) "c" =
      some (Value.vMap (mergeInto
        [("x", Value.vInt 1), ("s", Value.vStr "old")]
        [("s", Value.vStr "new")])) := by
  refine ⟨?_, ?_, ?_, ?_⟩
  · exact (mergeConfigMap_later_wins c1Base c1Inc (by decide) "a").2.1
      (Value.vInt 1) (Value.vInt 2) rfl rfl
      (fun bm im hb hi => Value.noConfusion hb)
  · exact ((mergeConfigMap_later_wins c1Base c1Inc
      (by decide) "d").2.2.1 rfl).trans rfl
  · exact (mergeConfigMap_later_wins c1Base c1Inc (by decide) "b").2.2.2
      rfl (Value.vInt 3) rfl
  · exact (mergeConfigMap_later_wins c1Base c1Inc (by decide) "c").1
      [("x", Value.vInt 1), ("s", Value.vStr "old")]
      [("s", Value.vStr "new")] rfl rfl

theorem legacyFold_preserve (files : List (String × List (String × Value)))
    (acc : List (String × Value)) (n : String)
    (h : n ∉ files.map Prod.fst) :
    lookupA (files.foldl
        (fun acc f => mergeInto acc [(f.1, Value.vMap f.2)]) acc) n =
      lookupA acc n := by
  induction files generalizing acc with
  | nil => rfl
  | cons f rest ih =>
      simp only [List.map_cons, List.mem_cons, not_or] at h
      rw [List.foldl_cons, ih _ h.2]
      have hne0 : ¬(f.1 = n) := fun he => h.1 he.symm
      have hne : lookupA [(f.1, Value.vMap f.2)] n = none := by
        simp [lookupA, hne0]
      exact mergeInto_lookup_of_none acc _ n hne

theorem legacyFold_mem (files : List (String × List (String × Value)))
    (acc : List (String × Value)) (n : String)
    (t : List (String × Value))
    (hnd : (files.map Prod.fst).Nodup)
    (hmem : (n, t) ∈ files)
    (hacc : lookupA acc n = none) :
    lookupA (files.foldl
        (fun acc f => mergeInto acc [(f.1, Value.vMap f.2)]) acc) n =
      some (Value.vMap t) := by
  induction files generalizing acc with
  | nil => cases hmem
  | cons f rest ih =>
      simp only [List.map_cons, List.nodup_cons] at hnd
      rw [List.foldl_cons]
      rcases List.mem_cons.mp hmem with hhead | htail
      · subst hhead
        rw [legacyFold_preserve rest _ n hnd.1]
        have hone : lookupA [(n, Value.vMap t)] n = some (Value.vMap t) := by
          simp [lookupA]
        rw [mergeInto_lookup acc [(n, Value.vMap t)] n (by simp [nodupKeys, keysOf]),
          hone, hacc]
      · have hn : n ∈ rest.map Prod.fst :=
          List.mem_map.mpr ⟨(n, t), htail, rfl⟩
        have hne : n ≠ f.1 := fun he => hnd.1 (he ▸ hn)
        have hacc2 : lookupA (mergeInto acc [(f.1, Value.vMap f.2)]) n =
            none := by
          have hnone : lookupA [(f.1, Value.vMap f.2)] n = none := by
            simp [lookupA, Ne.symm hne]
          rw [mergeInto_lookup_of_none acc _ n hnone]
          exact hacc
        exact ih _ hnd.2 htail hacc2

/-- C2 (amended): in the legacy directory load
(`Config.loadFromDirectoryWithPrefixAndOptions`, src/config.go) every
file's tree — the very first included, with no exception — is wrapped
under the namespace equal to its base name before merging, so a key
`name` in file `a` resolves as path `a.name`. (The newer
`Loader.LoadFromDirectory` of src/unnamed/part_001 performs no
namespacing at all; see the counterexample.) -/
theorem legacy_directory_load_namespaces
    (files : List (String × List (String × Value)))
    (n : String) (t : List (String × Value))
    (hnd : (files.map Prod.fst).Nodup)
    (hmem : (n, t) ∈ files) :
    lookupA (legacyLoadFromDirectory files) n = some (Value.vMap t) ∧
    (∀ key v, lookupA t key = some v → v.isNull = false →
        walk (Value.vMap (legacyLoadFromDirectory files)) [n, key] =
          some v) := by
  have hmain : lookupA (legacyLoadFromDirectory files) n =
      some (Value.vMap t) :=
    legacyFold_mem files [] n t hnd hmem rfl
  refine ⟨hmain, ?_⟩
  intro key v hkey hnn
  have h1 : walk (Value.vMap (legacyLoadFromDirectory files)) [n, key] =
      walk (Value.vMap t) [key] := by
    show (match lookupA (legacyLoadFromDirectory files) n with
          | some v => if v.isNull then none else walk v [key]
          | none => none) = walk (Value.vMap t) [key]
    rw [hmain]
    rfl
  have h2 : walk (Value.vMap t) [key] = some v := by
    show (match lookupA t key with
          | some w => if w.isNull then none else walk w []
          | none => none) = some v
    rw [hkey]
    simp [hnn, walk]
  rw [h1, h2]

/-- Witness for C2 (amended) on two concrete files `a` and `b`: both
are namespaced — including the first file `a`, which the spec exempted. -/
theorem legacy_directory_load_namespaces_witness :
    lookupA (legacyLoadFromDirectory
        [("a", [("name", Value.vStr "x")]), ("b", [("k", Value.vInt 1)])])
        "a" = some (Value.vMap [("name", Value.vStr "x")]) ∧
    walk (Value.vMap (legacyLoadFromDirectory
        [("a", [("name", Value.vStr "x")]), ("b", [("k", Value.vInt 1)])]))
        ["a", "name"] = some (Value.vStr "x") ∧
    lookupA (legacyLoadFromDirectory
        [("a", [("name", Value.vStr "x")]), ("b", [("k", Value.vInt 1)])])
        "b" = some (Value.vMap [("k", Value.vInt 1)]) := by
  refine ⟨?_, ?_, ?_⟩
  · exact (legacy_directory_load_namespaces
      [("a", [("name", Value.vStr "x")]), ("b", [("k", Value.vInt 1)])]
      "a" [("name", Value.vStr "x")] (by decide) (by simp)).1
  · exact (legacy_directory_load_namespaces
      [("a", [("name", Value.vStr "x")]), ("b", [("k", Value.vInt 1)])]
      "a" [("name", Value.vStr "x")] (by decide) (by simp)).2
      "name" (Value.vStr "x") rfl rfl
  · exact (legacy_directory_load_namespaces
      [("a", [("name", Value.vStr "x")]), ("b", [("k", Value.vInt 1)])]
      "b" [("k", Value.vInt 1)] (by decide) (by simp)).1

/-- Counterexample for C2 as stated: the directory load of
`Loader.LoadFromDirectory` (src/unnamed/part_001) wraps no file under a
namespace — loading `a` (containing `name: "x"`) and then `b` leaves
`name` at top level, so `get("a.name", String)` fails with
`ErrKeyNotFound` while plain `get("name", String)` succeeds. -/
theorem loader_directory_no_namespace_counterexample :
    loaderLoadFromDirectory
        [("a", [("name", Value.vStr "x")]), ("b", [("k", Value.vInt 1)])] =
      [("name", Value.vStr "x"), ("k", Value.vInt 1)] ∧
    getterGet (loaderLoadFromDirectory
        [("a", [("name", Value.vStr "x")]), ("b", [("k", Value.vInt 1)])])
        "a.name" "string" = Except.error GetErr.keyNotFound ∧
    getterGet (loaderLoadFromDirectory
        [("a", [("name", Value.vStr "x")]), ("b", [("k", Value.vInt 1)])])
        "name" "string" = Except.ok (Value.vStr "x") := by
  exact ⟨rfl, rfl, rfl⟩

/-- Whether a node is a scalar (or the Go `nil`): anything that is
neither a mapping nor a sequence. -/
def Value.isScalar : Value → Bool
  | Value.vNull => true
  | Value.vBool _ => true
  | Value.vInt _ => true
  | Value.vStr _ => true
  | _ => false

theorem walk_map_step (m : List (String × Value)) (p : String)
    (rest : List String) (v : Value) (h : lookupA m p = some v)
    (hnn : v.isNull = false) :
    walk (Value.vMap m) (p :: rest) = walk v rest := by
  show (match lookupA m p with
        | some v => if v.isNull then none else walk v rest
        | none => none) = walk v rest
  rw [h]
  show (if v.isNull = true then none else walk v rest) = walk v rest
  rw [hnn]
  rfl

theorem walk_map_null (m : List (String × Value)) (p : String)
    (rest : List String) (v : Value) (h : lookupA m p = some v)
    (hnn : v.isNull = true) :
    walk (Value.vMap m) (p :: rest) = none := by
  show (match lookupA m p with
        | some v => if v.isNull then none else walk v rest
        | none => none) = none
  rw [h]
  show (if v.isNull = true then none else walk v rest) = none
  rw [hnn]
  rfl

theorem walk_map_missing (m : List (String × Value)) (p : String)
    (rest : List String) (h : lookupA m p = none) :
    walk (Value.vMap m) (p :: rest) = none := by
  show (match lookupA m p with
        | some v => if v.isNull then none else walk v rest
        | none => none) = none
  rw [h]

theorem walk_seq_elem (xs : List Value) (p : String) (rest : List String)
    (i : Int) (v : Value) (hi : atoi p = some i) (hge : 0 ≤ i)
    (hv : xs.get? i.toNat = some v) (hnn : v.isNull = false) :
    walk (Value.vSeq xs) (p :: rest) = walk v rest := by
  show (match atoi p with
        | some i =>
            if 0 ≤ i then
              match xs.get? i.toNat with
              | some v => if v.isNull then none else walk v rest
              | none => none
            else none
        | none => none) = walk v rest
  rw [hi]
  show (if 0 ≤ i then
          match xs.get? i.toNat with
          | some v => if v.isNull then none else walk v rest
          | none => none
        else none) = walk v rest
  rw [if_pos hge, hv]
  show (if v.isNull = true then none else walk v rest) = walk v rest
  rw [hnn]
  rfl

theorem walk_seq_oob (xs : List Value) (p : String) (rest : List String)
    (i : Int) (hi : atoi p = some i) (hge : 0 ≤ i)
    (hv : xs.get? i.toNat = none) :
    walk (Value.vSeq xs) (p :: rest) = none := by
  show (match atoi p with
        | some i =>
            if 0 ≤ i then
              match xs.get? i.toNat with
              | some v => if v.isNull then none else walk v rest
              | none => none
            else none
        | none => none) = none
  rw [hi]
  show (if 0 ≤ i then
          match xs.get? i.toNat with
          | some v => if v.isNull then none else walk v rest
          | none => none
        else none) = none
  rw [if_pos hge, hv]

theorem walk_seq_neg (xs : List Value) (p : String) (rest : List String)
    (i : Int) (hi : atoi p = some i) (hlt : i < 0) :
    walk (Value.vSeq xs) (p :: rest) = none := by
  show (match atoi p with
        | some i =>
            if 0 ≤ i then
              match xs.get? i.toNat with
              | some v => if v.isNull then none else walk v rest
              | none => none
            else none
        | none => none) = none
  rw [hi]
  show (if 0 ≤ i then
          match xs.get? i.toNat with
          | some v => if v.isNull then none else walk v rest
          | none => none
        else none) = none
  rw [if_neg (not_le.mpr hlt)]

theorem walk_seq_nan (xs : List Value) (p : String) (rest : List String)
    (hi : atoi p = none) :
    walk (Value.vSeq xs) (p :: rest) = none := by
  show (match atoi p with
        | some i =>
            if 0 ≤ i then
              match xs.get? i.toNat with
              | some v => if v.isNull then none else walk v rest
              | none => none
            else none
        | none => none) = none
  rw [hi]

theorem walk_scalar (cur : Value) (p : String) (rest : List String)
    (h : cur.isScalar = true) :
    walk cur (p :: rest) = none := by
  cases cur <;> first
    | rfl
    | exact absurd h (by simp [Value.isScalar])

/-- C3: when a path segment addresses a sequence, a segment parsing as
an in-range non-negative integer i yields the i-th element; an
out-of-range or negative or non-numeric segment yields not-found, and a
not-found resolution is surfaced by get as `ErrKeyNotFound`. -/
theorem sequence_index_lookup (m : List (String × Value))
    (listKey seg : String) (xs : List Value)
    (hm : lookupA m listKey = some (Value.vSeq xs)) :
    (∀ i : Int, ∀ v : Value, atoi seg = some i → 0 ≤ i →
        xs.get? i.toNat = some v → v.isNull = false →
        walk (Value.vMap m) [listKey, seg] = some v) ∧
    (∀ i : Int, atoi seg = some i → 0 ≤ i → xs.length ≤ i.toNat →
        walk (Value.vMap m) [listKey, seg] = none) ∧
    (∀ i : Int, atoi seg = some i → i < 0 →
        walk (Value.vMap m) [listKey, seg] = none) ∧
    (atoi seg = none → walk (Value.vMap m) [listKey, seg] = none) ∧
    (∀ t, walkCI (Value.vMap m) [listKey, seg] = none →
        getterGetSegs m [listKey, seg] t = Except.error GetErr.keyNotFound) := by
  have hstep : walk (Value.vMap m) [listKey, seg] =
      walk (Value.vSeq xs) [seg] :=
    walk_map_step m listKey [seg] (Value.vSeq xs) hm rfl
  refine ⟨?_, ?_, ?_, ?_, ?_⟩
  · intro i v hi hge hv hnn
    rw [hstep]
    exact (walk_seq_elem xs seg [] i v hi hge hv hnn).trans rfl
  · intro i hi hge hlen
    rw [hstep]
    exact walk_seq_oob xs seg [] i hi hge (List.get?_eq_none.mpr hlen)
  · intro i hi hlt
    rw [hstep]
    exact walk_seq_neg xs seg [] i hi hlt
  · intro hi
    rw [hstep]
    exact walk_seq_nan xs seg [] hi
  · intro t h
    show (match resolveSegs m [listKey, seg] with
          | none => Except.error GetErr.keyNotFound
          | some v => convertVal v t) = Except.error GetErr.keyNotFound
    show (match walkCI (Value.vMap m) [listKey, seg] with
          | none => Except.error GetErr.keyNotFound
          | some v => convertVal v t) = Except.error GetErr.keyNotFound
    rw [h]

/-- Concrete sequence for the C3 witness. -/
def c3Seq : List Value := [Value.vInt 10, Value.vInt 20, Value.vInt 30]

/-- Concrete tree for the C3 witness: `list: [10, 20, 30]`. -/
def c3Tree : List (String × Value) := [("list", Value.vSeq c3Seq)]

/-- Witness for C3 on `list: [10, 20, 30]`: index 1 yields 20, index 5
and a non-numeric segment yield not-found, and the getter surfaces the
out-of-range access as `ErrKeyNotFound`. -/
theorem sequence_index_lookup_witness :
    walk (Value.vMap c3Tree) ["list", "1"] = some (Value.vInt 20) ∧
    walk (Value.vMap c3Tree) ["list", "5"] = none ∧
    walk (Value.vMap c3Tree) ["list", "notanumber"] = none ∧
    getterGetSegs c3Tree ["list", "5"] "int" =
      Except.error GetErr.keyNotFound := by
  refine ⟨?_, ?_, ?_, ?_⟩
  · exact (sequence_index_lookup c3Tree "list" "1" c3Seq rfl).1 1
      (Value.vInt 20) rfl (by decide) rfl rfl
  · exact (sequence_index_lookup c3Tree "list" "5" c3Seq rfl).2.1 5 rfl
      (by decide) (by decide)
  · exact (sequence_index_lookup c3Tree "list" "notanumber" c3Seq
      rfl).2.2.2.1 rfl
  · exact (sequence_index_lookup c3Tree "list" "5" c3Seq rfl).2.2.2.2
      "int" rfl

/-- C7: path resolution is a total function on trees and paths (the
walk below is defined for every tree and every segment list), and at
any segment that does not match the current node's shape — a scalar or
nil node with segments remaining, a mapping without the key, a nil
value, a sequence with a non-numeric, negative or out-of-range index —
it returns the not-found result instead of failing. -/
theorem resolution_soft_fail (cur : Value) (p : String)
    (rest : List String) :
    (cur.isScalar = true → walk cur (p :: rest) = none) ∧
    (∀ m, cur = Value.vMap m → lookupA m p = none →
        walk cur (p :: rest) = none) ∧
    (∀ m v, cur = Value.vMap m → lookupA m p = some v →
        v.isNull = true → walk cur (p :: rest) = none) ∧
    (∀ xs, cur = Value.vSeq xs → atoi p = none →
        walk cur (p :: rest) = none) ∧
    (∀ xs, ∀ i : Int, cur = Value.vSeq xs → atoi p = some i →
        (i < 0 ∨ xs.length ≤ i.toNat) → walk cur (p :: rest) = none) := by
  refine ⟨?_, ?_, ?_, ?_, ?_⟩
  · intro h
    exact walk_scalar cur p rest h
  · intro m hc h
    rw [hc]
    exact walk_map_missing m p rest h
  · intro m v hc h hnn
    rw [hc]
    exact walk_map_null m p rest v h hnn
  · intro xs hc h
    rw [hc]
    exact walk_seq_nan xs p rest h
  · intro xs i hc hi hrange
    rw [hc]
    rcases lt_or_le i 0 with h0 | h0
    · exact walk_seq_neg xs p rest i hi h0
    · rcases hrange with hlt | hlen
      · exact absurd hlt (not_lt.mpr h0)
      · exact walk_seq_oob xs p rest i hi h0 (List.get?_eq_none.mpr hlen)

/-- Witness for C7 at concrete shape mismatches: a scalar with a
segment remaining, a missing mapping key, an explicit null value, a
non-numeric index and an out-of-range index all resolve to not-found. -/
theorem resolution_soft_fail_witness :
    walk (Value.vStr "leaf") ["a"] = none ∧
    walk (Value.vMap [("x", Value.vInt 1)]) ["y"] = none ∧
    walk (Value.vMap [("x", Value.vNull)]) ["x"] = none ∧
    walk (Value.vSeq [Value.vInt 1]) ["no"] = none ∧
    walk (Value.vSeq [Value.vInt 1]) ["7"] = none := by
  refine ⟨?_, ?_, ?_, ?_, ?_⟩
  · exact (resolution_soft_fail (Value.vStr "leaf") "a" []).1 rfl
  · exact (resolution_soft_fail (Value.vMap [("x", Value.vInt 1)]) "y"
      []).2.1 [("x", Value.vInt 1)] rfl rfl
  · exact (resolution_soft_fail (Value.vMap [("x", Value.vNull)]) "x"
      []).2.2.1 [("x", Value.vNull)] Value.vNull rfl rfl rfl
  · exact (resolution_soft_fail (Value.vSeq [Value.vInt 1]) "no"
      []).2.2.2.1 [Value.vInt 1] rfl rfl
  · exact (resolution_soft_fail (Value.vSeq [Value.vInt 1]) "7"
      []).2.2.2.2 [Value.vInt 1] 7 rfl rfl (Or.inr (by decide))

theorem scanCI_first (pre : List (String × Value)) (k : String) (v : Value)
    (post : List (String × Value)) (lp : String)
    (hk : strToLower k = lp)
    (hpre : ∀ q ∈ pre, strToLower q.1 ≠ lp) :
    scanCI (pre ++ (k, v) :: post) lp = some v := by
  induction pre with
  | nil =>
      show (if strToLower k = lp then some v else scanCI post lp) = some v
      rw [if_pos hk]
  | cons q rest ih =>
      obtain ⟨k0, v0⟩ := q
      show (if strToLower k0 = lp then some v0
            else scanCI (rest ++ (k, v) :: post) lp) = some v
      rw [if_neg (hpre (k0, v0) (List.mem_cons_self _ _))]
      exact ih (fun q hq => hpre q (List.mem_cons_of_mem _ hq))

theorem scanCI_none (entries : List (String × Value)) (lp : String)
    (h : ∀ q ∈ entries, strToLower q.1 ≠ lp) :
    scanCI entries lp = none := by
  induction entries with
  | nil => rfl
  | cons q rest ih =>
      obtain ⟨k0, v0⟩ := q
      show (if strToLower k0 = lp then some v0 else scanCI rest lp) = none
      rw [if_neg (h (k0, v0) (List.mem_cons_self _ _))]
      exact ih (fun q hq => h q (List.mem_cons_of_mem _ hq))

theorem walkCI_map_exact (m : List (String × Value)) (p : String)
    (rest : List String) (v : Value) (h : lookupA m p = some v)
    (hnn : v.isNull = false) :
    walkCI (Value.vMap m) (p :: rest) = walkCI v rest := by
  show (match lookupA m p with
        | some v => if v.isNull then none else walkCI v rest
        | none =>
            match scanCI m (strToLower p) with
            | some v => if v.isNull then none else walkCI v rest
            | none => none) = walkCI v rest
  rw [h]
  show (if v.isNull = true then none else walkCI v rest) = walkCI v rest
  rw [hnn]
  rfl

theorem walkCI_map_scan (m : List (String × Value)) (p : String)
    (rest : List String) (v : Value) (h : lookupA m p = none)
    (hs : scanCI m (strToLower p) = some v) (hnn : v.isNull = false) :
    walkCI (Value.vMap m) (p :: rest) = walkCI v rest := by
  show (match lookupA m p with
        | some v => if v.isNull then none else walkCI v rest
        | none =>
            match scanCI m (strToLower p) with
            | some v => if v.isNull then none else walkCI v rest
            | none => none) = walkCI v rest
  rw [h]
  show (match scanCI m (strToLower p) with
        | some v => if v.isNull then none else walkCI v rest
        | none => none) = walkCI v rest
  rw [hs]
  show (if v.isNull = true then none else walkCI v rest) = walkCI v rest
  rw [hnn]
  rfl

theorem walkCI_map_nomatch (m : List (String × Value)) (p : String)
    (rest : List String) (h : lookupA m p = none)
    (hs : scanCI m (strToLower p) = none) :
    walkCI (Value.vMap m) (p :: rest) = none := by
  show (match lookupA m p with
        | some v => if v.isNull then none else walkCI v rest
        | none =>
            match scanCI m (strToLower p) with
            | some v => if v.isNull then none else walkCI v rest
            | none => none) = none
  rw [h]
  show (match scanCI m (strToLower p) with
        | some v => if v.isNull then none else walkCI v rest
        | none => none) = none
  rw [hs]

/-- C4: at every mapping node the case-insensitive resolver looks up
the segment by exact match first (the exact value is used even when an
entry earlier in the mapping also matches case-insensitively); only
when the exact key is absent does it scan all entries case-
insensitively, and the first case-insensitively matching entry wins;
with no match at all the segment resolves to not-found. -/
theorem ci_exact_then_scan (m : List (String × Value)) (p : String)
    (rest : List String) :
    (∀ v, lookupA m p = some v → v.isNull = false →
        walkCI (Value.vMap m) (p :: rest) = walkCI v rest) ∧
    (∀ pre k v post, lookupA m p = none →
        m = pre ++ (k, v) :: post →
        strToLower k = strToLower p →
        (∀ q ∈ pre, strToLower q.1 ≠ strToLower p) →
        v.isNull = false →
        walkCI (Value.vMap m) (p :: rest) = walkCI v rest) ∧
    (lookupA m p = none →
        (∀ q ∈ m, strToLower q.1 ≠ strToLower p) →
        walkCI (Value.vMap m) (p :: rest) = none) := by
  refine ⟨?_, ?_, ?_⟩
  · intro v h hnn
    exact walkCI_map_exact m p rest v h hnn
  · intro pre k v post h hm hk hpre hnn
    refine walkCI_map_scan m p rest v h ?_ hnn
    rw [hm]
    exact scanCI_first pre k v post (strToLower p) hk hpre
  · intro h hall
    exact walkCI_map_nomatch m p rest h (scanCI_none m (strToLower p) hall)

/-- Concrete mapping for the C4 witness: the key "foo" exists exactly
and the differently-cased "Foo" sits in front of it. -/
def c4Map : List (String × Value) :=
  [("Foo", Value.vInt 1), ("foo", Value.vInt 2), ("Bar", Value.vInt 3)]

/-- Witness for C4: the exact match "foo" wins over the earlier
case-variant "Foo"; the segment "BAR" has no exact match and falls back
to the first case-insensitive match "Bar"; the segment "zap" matches
nothing and resolves to not-found. -/
theorem ci_exact_then_scan_witness :
    walkCI (Value.vMap c4Map) ["foo"] = some (Value.vInt 2) ∧
    walkCI (Value.vMap c4Map) ["BAR"] = some (Value.vInt 3) ∧
    walkCI (Value.vMap c4Map) ["zap"] = none := by
  refine ⟨?_, ?_, ?_⟩
  · exact ((ci_exact_then_scan c4Map "foo" []).1 (Value.vInt 2) rfl
      rfl).trans rfl
  · exact ((ci_exact_then_scan c4Map "BAR" []).2.1
      [("Foo", Value.vInt 1), ("foo", Value.vInt 2)] "Bar" (Value.vInt 3)
      [] rfl rfl rfl (by decide) rfl).trans rfl
  · exact (ci_exact_then_scan c4Map "zap" []).2.2 rfl (by decide)

/-- C5: the typed get classifies its errors exactly as `ErrKeyNotFound`
when resolution finds no value; `ErrWrongType` when a value exists but
neither direct assertion nor coercion to the requested type succeeds
(so a stored numeric string coerces to int, a non-numeric string does
not); `ErrUnknownType` when the requested type tag is unrecognized; and
a successful direct assertion returns the stored value. -/
theorem get_error_taxonomy (settings : List (String × Value))
    (segs : List String) (t : String) :
    (resolveSegs settings segs = none →
        getterGetSegs settings segs t = Except.error GetErr.keyNotFound) ∧
    (∀ v, resolveSegs settings segs = some v → t ∈ recognizedTags →
        directCast v t = none → coerceVal v t = none →
        getterGetSegs settings segs t = Except.error GetErr.wrongType) ∧
    (∀ v, resolveSegs settings segs = some v → t ∉ recognizedTags →
        getterGetSegs settings segs t = Except.error GetErr.unknownType) ∧
    (∀ v r, resolveSegs settings segs = some v → t ∈ recognizedTags →
        directCast v t = some r →
        getterGetSegs settings segs t = Except.ok r) ∧
    (∀ s, ∀ n : Int, resolveSegs settings segs = some (Value.vStr s) →
        t = "int" → atoi s = some n →
        getterGetSegs settings segs t = Except.ok (Value.vInt n)) := by
  refine ⟨?_, ?_, ?_, ?_, ?_⟩
  · intro h
    show (match resolveSegs settings segs with
          | none => Except.error GetErr.keyNotFound
          | some v => convertVal v t) = Except.error GetErr.keyNotFound
    rw [h]
  · intro v hres ht hd hc
    show (match resolveSegs settings segs with
          | none => Except.error GetErr.keyNotFound
          | some v => convertVal v t) = Except.error GetErr.wrongType
    rw [hres]
    show convertVal v t = Except.error GetErr.wrongType
    unfold convertVal
    rw [if_pos ht, hd, hc]
  · intro v hres ht
    show (match resolveSegs settings segs with
          | none => Except.error GetErr.keyNotFound
          | some v => convertVal v t) = Except.error GetErr.unknownType
    rw [hres]
    show convertVal v t = Except.error GetErr.unknownType
    unfold convertVal
    rw [if_neg ht]
  · intro v r hres ht hd
    show (match resolveSegs settings segs with
          | none => Except.error GetErr.keyNotFound
          | some v => convertVal v t) = Except.ok r
    rw [hres]
    show convertVal v t = Except.ok r
    unfold convertVal
    rw [if_pos ht, hd]
  · intro s n hres ht hn
    subst ht
    show (match resolveSegs settings segs with
          | none => Except.error GetErr.keyNotFound
          | some v => convertVal v "int") = Except.ok (Value.vInt n)
    rw [hres]
    show convertVal (Value.vStr s) "int" = Except.ok (Value.vInt n)
    unfold convertVal
    rw [if_pos (by decide)]
    show (match coerceVal (Value.vStr s) "int" with
          | some r => Except.ok r
          | none => Except.error GetErr.wrongType) = Except.ok (Value.vInt n)
    show (match (atoi s).map Value.vInt with
          | some r => Except.ok r
          | none => Except.error GetErr.wrongType) = Except.ok (Value.vInt n)
    rw [hn]
    rfl

/-- Concrete snapshot for the C5 witness, matching TestConfig_Get in
src/unnamed/part_004: `str.int` holds the string "420", `my.str` the
string "abc", `my.int` the int 123. -/
def c5Tree : List (String × Value) :=
  [("str", Value.vMap [("int", Value.vStr "420")]),
   ("my", Value.vMap [("str", Value.vStr "abc"), ("int", Value.vInt 123)])]

/-- Witness for C5 on the TestConfig_Get data: get("str.int", Int)
coerces "420" to 420; get("my.str", Int) fails with `ErrWrongType`;
get("missing", Int) fails with `ErrKeyNotFound`; an unrecognized tag
fails with `ErrUnknownType`; get("my.int", Int) asserts directly. -/
theorem get_error_taxonomy_witness :
    getterGetSegs c5Tree ["str", "int"] "int" =
      Except.ok (Value.vInt 420) ∧
    getterGetSegs c5Tree ["my", "str"] "int" =
      Except.error GetErr.wrongType ∧
    getterGetSegs c5Tree ["missing"] "int" =
      Except.error GetErr.keyNotFound ∧
    getterGetSegs c5Tree ["my", "int"] "frob" =
      Except.error GetErr.unknownType ∧
    getterGetSegs c5Tree ["my", "int"] "int" =
      Except.ok (Value.vInt 123) := by
  refine ⟨?_, ?_, ?_, ?_, ?_⟩
  · exact (get_error_taxonomy c5Tree ["str", "int"] "int").2.2.2.2
      "420" 420 rfl rfl rfl
  · exact (get_error_taxonomy c5Tree ["my", "str"] "int").2.1
      (Value.vStr "abc") rfl (by decide) rfl rfl
  · exact (get_error_taxonomy c5Tree ["missing"] "int").1 rfl
  · exact (get_error_taxonomy c5Tree ["my", "int"] "frob").2.2.1
      (Value.vInt 123) rfl (by decide)
  · exact (get_error_taxonomy c5Tree ["my", "int"] "int").2.2.2.1
      (Value.vInt 123) (Value.vInt 123) rfl (by decide) rfl

/-- C6: when the provider re-read fails, `Config.Reload` reports the
error and leaves the service — in particular the getter snapshot that
serves reads — exactly as it was. -/
theorem reload_failure_keeps_snapshot (c : ConfigService) (e : String)
    (outcome : ReadOutcome) (h : outcome = Except.error e) :
    (c.Reload outcome).1 = c ∧
    (c.Reload outcome).1.getter = c.getter ∧
    (c.Reload outcome).2 = some e := by
  subst h
  exact ⟨rfl, rfl, rfl⟩

/-- Witness for C6 at a concrete service state and a failing read: the
getter snapshot survives unchanged and the error is reported. -/
theorem reload_failure_keeps_snapshot_witness :
    ((ConfigService.mk [("k", Value.vInt 1)] [("k", Value.vInt 1)]
        false).Reload (Except.error "io")).1.getter =
      [("k", Value.vInt 1)] ∧
    ((ConfigService.mk [("k", Value.vInt 1)] [("k", Value.vInt 1)]
        false).Reload (Except.error "io")).2 = some "io" := by
  have h := reload_failure_keeps_snapshot
    (ConfigService.mk [("k", Value.vInt 1)] [("k", Value.vInt 1)] false)
    "io" (Except.error "io") rfl
  exact ⟨h.2.1, h.2.2⟩

/-- Counterexample for C9 as stated: `Config.Reload` consults no
closed-state flag, so after `Close` a reload whose provider read
succeeds returns no error and swaps in the fresh snapshot — it does not
fail with a terminal error. -/
theorem reload_after_close_succeeds_counterexample :
    ((ConfigService.Close (ConfigService.mk [] [] false)).Reload
        (Except.ok [("k", Value.vStr "v")])).2 = none ∧
    ((ConfigService.Close (ConfigService.mk [] [] false)).Reload
        (Except.ok [("k", Value.vStr "v")])).1.getter =
      [("k", Value.vStr "v")] := by
  exact ⟨rfl, rfl⟩

/-- C9 (amended): `Close` marks the service closed (the `done` channel)
and shuts the watcher down, but `Reload` performs no closed-state
check: after `Close`, a reload succeeds and rebuilds the snapshot
whenever the provider read succeeds, and fails only when the read
itself fails. -/
theorem reload_after_close_unchecked (c : ConfigService)
    (s : List (String × Value)) :
    (ConfigService.Close c).closed = true ∧
    ((ConfigService.Close c).Reload (Except.ok s)).2 = none ∧
    ((ConfigService.Close c).Reload (Except.ok s)).1.getter = s ∧
    (∀ e, ((ConfigService.Close c).Reload (Except.error e)).2 = some e) := by
  exact ⟨rfl, rfl, rfl, fun e => rfl⟩

theorem walkCI_setPath (segs : List String) (hne : segs ≠ [])
    (v : Value) (hnn : v.isNull = false) (m : List (String × Value)) :
    walkCI (Value.vMap (setPath m segs v)) (segs.map strToLower) =
      some v := by
  induction segs generalizing m with
  | nil => exact absurd rfl hne
  | cons k rest ih =>
      cases rest with
      | nil =>
          show walkCI (Value.vMap (setKey m (strToLower k) v))
              [strToLower k] = some v
          rw [walkCI_map_exact _ _ _ v
            (lookupA_setKey_self m (strToLower k) v) hnn]
          rfl
      | cons k2 rest2 =>
          have hsp : setPath m (k :: k2 :: rest2) v =
              setKey m (strToLower k) (Value.vMap (setPath
                (match lookupA m (strToLower k) with
                 | some (Value.vMap sm) => sm
                 | _ => []) (k2 :: rest2) v)) := rfl
          rw [hsp, List.map_cons]
          rw [walkCI_map_exact _ _ _
            (Value.vMap (setPath
              (match lookupA m (strToLower k) with
               | some (Value.vMap sm) => sm
               | _ => []) (k2 :: rest2) v))
            (lookupA_setKey_self m (strToLower k) _) rfl]
          exact ih (by simp) _

/-- C8: after set(key, value) the round-trip holds — resolution of the
same key finds the stored value, has(key) is true, and get with a type
tag the value directly matches returns the value unchanged. The
provider lower-cases key segments on write, so the round-trip is stated
on the lower-cased path that viper queries with. -/
theorem set_get_round_trip (m : List (String × Value))
    (segs : List String) (v : Value) (hne : segs ≠ [])
    (hnn : v.isNull = false) :
    resolveSegs (setPath m segs v) (segs.map strToLower) = some v ∧
    (resolveSegs (setPath m segs v) (segs.map strToLower)).isSome = true ∧
    (∀ t, directCast v t = some v → t ∈ recognizedTags →
        getterGetSegs (setPath m segs v) (segs.map strToLower) t =
          Except.ok v) := by
  have hres : resolveSegs (setPath m segs v) (segs.map strToLower) =
      some v := walkCI_setPath segs hne v hnn m
  refine ⟨hres, by rw [hres]; rfl, ?_⟩
  intro t hd ht
  show (match resolveSegs (setPath m segs v) (segs.map strToLower) with
        | none => Except.error GetErr.keyNotFound
        | some w => convertVal w t) = Except.ok v
  rw [hres]
  show convertVal v t = Except.ok v
  unfold convertVal
  rw [if_pos ht, hd]

/-- Witness for C8: setting `app.name` to the string "x" in an empty
tree makes it resolvable, reports present, and get with the string tag
returns it unchanged. -/
theorem set_get_round_trip_witness :
    resolveSegs (setPath [] ["app", "name"] (Value.vStr "x"))
      ["app", "name"] = some (Value.vStr "x") ∧
    (resolveSegs (setPath [] ["app", "name"] (Value.vStr "x"))
      ["app", "name"]).isSome = true ∧
    getterGetSegs (setPath [] ["app", "name"] (Value.vStr "x"))
      ["app", "name"] "string" = Except.ok (Value.vStr "x") := by
  have h := set_get_round_trip [] ["app", "name"] (Value.vStr "x")
    (by simp) rfl
  have hm : (["app", "name"].map strToLower) = ["app", "name"] := rfl
  rw [hm] at h
  exact ⟨h.1, h.2.1, h.2.2 "string" rfl (by decide)⟩

/-- C10: on an absent key (the composite legacy `Config.Get` resolves
to Go `nil`), every legacy typed getter returns its type's zero value
— empty string, 0, false, zero time, zero duration, nil slice and nil
maps — rather than an error: the `value == nil` branch of
`getTypedValue` returns the default before any type check or viper
fallback runs, for every possible fallback function. -/
theorem legacy_getters_zero_on_absent (fs : Unit → String)
    (fi ff fd ft : Unit → Int) (fb : Unit → Bool)
    (fsl : Unit → List String) (fm : Unit → List (String × Value))
    (fms : Unit → List (String × String)) :
    legacyGetString none fs = "" ∧
    legacyGetInt none fi = 0 ∧
    legacyGetBool none fb = false ∧
    legacyGetFloat64 none ff = 0 ∧
    legacyGetDuration none fd = 0 ∧
    legacyGetTime none ft = 0 ∧
    legacyGetStringSlice none fsl = [] ∧
    legacyGetStringMap none fm = [] ∧
    legacyGetStringMapString none fms = [] := by
  exact ⟨rfl, rfl, rfl, rfl, rfl, rfl, rfl, rfl, rfl⟩
